import Mathlib

/-!
Verification development for the AI-Eraser detection-fusion and redaction
pipeline (`src/aiService.ts` of the AI-ERASER repository).

The pure logic of the pipeline is shallowly embedded over exact rational
coordinates (JavaScript numbers never overflow on the magnitudes involved,
and every arithmetic operation the embedded code performs — addition,
subtraction, multiplication, division, `Math.min`/`Math.max`/`Math.floor` —
is exact on the values that occur here).  External collaborators
(BlazeFace, COCO-SSD, BodyPix, Tesseract, and the browser canvas blur
primitive) are opaque per the repository's own design; they appear as
oracle parameters, with `Except` results standing for promise
rejection/thrown errors.
-/

/-- Mirrors the `FaceBox` interface of `aiService.ts`:
`{x, y, width, height, source, score}`. -/
structure FaceBox where
  x : ℚ
  y : ℚ
  width : ℚ
  height : ℚ
  source : String
  score : ℚ
deriving DecidableEq, Repr

/-- Mirrors `computeIoU` of `aiService.ts`: axis-aligned
intersection-over-union with an early `0` return when the intersection
area is zero. -/
def computeIoU (a b : FaceBox) : ℚ :=
  let x1 := max a.x b.x
  let y1 := max a.y b.y
  let x2 := min (a.x + a.width) (b.x + b.width)
  let y2 := min (a.y + a.height) (b.y + b.height)
  let intersection := max 0 (x2 - x1) * max 0 (y2 - y1)
  if intersection = 0 then 0
  else
    let areaA := a.width * a.height
    let areaB := b.width * b.height
    intersection / (areaA + areaB - intersection)

/-- The intersection-area term of `computeIoU`, named for the proofs. -/
def interArea (a b : FaceBox) : ℚ :=
  max 0 (min (a.x + a.width) (b.x + b.width) - max a.x b.x) *
    max 0 (min (a.y + a.height) (b.y + b.height) - max a.y b.y)

/-- Two boxes overlap when their rectangle intersection has positive
extent on both axes. -/
def boxOverlap (a b : FaceBox) : Prop :=
  max a.x b.x < min (a.x + a.width) (b.x + b.width) ∧
    max a.y b.y < min (a.y + a.height) (b.y + b.height)

lemma computeIoU_eq_interArea (a b : FaceBox) :
    computeIoU a b =
      if interArea a b = 0 then 0
      else interArea a b / (a.width * a.height + b.width * b.height - interArea a b) := rfl

lemma interArea_nonneg (a b : FaceBox) : 0 ≤ interArea a b :=
  mul_nonneg (le_max_left 0 _) (le_max_left 0 _)

lemma interArea_comm (a b : FaceBox) : interArea a b = interArea b a := by
  unfold interArea
  rw [max_comm a.x b.x, max_comm a.y b.y, min_comm (a.x + a.width) (b.x + b.width),
    min_comm (a.y + a.height) (b.y + b.height)]

/-- When the intersection area is nonzero, both boxes have positive extent
and the intersection area is positive and bounded by each box's area. -/
lemma interArea_facts (a b : FaceBox) (h : interArea a b ≠ 0) :
    0 < interArea a b ∧
      interArea a b ≤ a.width * a.height ∧ interArea a b ≤ b.width * b.height ∧
      0 < a.width ∧ 0 < a.height ∧ 0 < b.width ∧ 0 < b.height := by
  set u := min (a.x + a.width) (b.x + b.width) - max a.x b.x with hu
  set v := min (a.y + a.height) (b.y + b.height) - max a.y b.y with hv
  have hInt : interArea a b = max 0 u * max 0 v := rfl
  have hu0 : max 0 u ≠ 0 := by
    intro h0
    rw [hInt, h0, zero_mul] at h
    exact h rfl
  have hv0 : max 0 v ≠ 0 := by
    intro h0
    rw [hInt, h0, mul_zero] at h
    exact h rfl
  have hupos : 0 < u := by
    rcases le_or_lt u 0 with hle | hlt
    · exact absurd (max_eq_left hle) hu0
    · exact hlt
  have hvpos : 0 < v := by
    rcases le_or_lt v 0 with hle | hlt
    · exact absurd (max_eq_left hle) hv0
    · exact hlt
  have humax : max 0 u = u := max_eq_right hupos.le
  have hvmax : max 0 v = v := max_eq_right hvpos.le
  have hua : u ≤ a.width := by
    have h1 : min (a.x + a.width) (b.x + b.width) ≤ a.x + a.width := min_le_left _ _
    have h2 : a.x ≤ max a.x b.x := le_max_left _ _
    rw [hu]; linarith
  have hub : u ≤ b.width := by
    have h1 : min (a.x + a.width) (b.x + b.width) ≤ b.x + b.width := min_le_right _ _
    have h2 : b.x ≤ max a.x b.x := le_max_right _ _
    rw [hu]; linarith
  have hva : v ≤ a.height := by
    have h1 : min (a.y + a.height) (b.y + b.height) ≤ a.y + a.height := min_le_left _ _
    have h2 : a.y ≤ max a.y b.y := le_max_left _ _
    rw [hv]; linarith
  have hvb : v ≤ b.height := by
    have h1 : min (a.y + a.height) (b.y + b.height) ≤ b.y + b.height := min_le_right _ _
    have h2 : b.y ≤ max a.y b.y := le_max_right _ _
    rw [hv]; linarith
  have hwa : 0 < a.width := lt_of_lt_of_le hupos hua
  have hha : 0 < a.height := lt_of_lt_of_le hvpos hva
  have hwb : 0 < b.width := lt_of_lt_of_le hupos hub
  have hhb : 0 < b.height := lt_of_lt_of_le hvpos hvb
  refine ⟨?_, ?_, ?_, hwa, hha, hwb, hhb⟩
  · rw [hInt, humax, hvmax]; exact mul_pos hupos hvpos
  · rw [hInt, humax, hvmax]; exact mul_le_mul hua hva hvpos.le hwa.le
  · rw [hInt, humax, hvmax]; exact mul_le_mul hub hvb hvpos.le hwb.le

lemma interArea_eq_zero_iff (a b : FaceBox) :
    interArea a b = 0 ↔ ¬ boxOverlap a b := by
  constructor
  · intro h hov
    obtain ⟨h1, h2⟩ := hov
    have hu : 0 < min (a.x + a.width) (b.x + b.width) - max a.x b.x := sub_pos.mpr h1
    have hv : 0 < min (a.y + a.height) (b.y + b.height) - max a.y b.y := sub_pos.mpr h2
    have : 0 < interArea a b := by
      unfold interArea
      rw [max_eq_right hu.le, max_eq_right hv.le]
      exact mul_pos hu hv
    rw [h] at this
    exact lt_irrefl 0 this
  · intro hno
    unfold boxOverlap at hno
    rw [not_and_or] at hno
    unfold interArea
    rcases hno with h1 | h2
    · have : min (a.x + a.width) (b.x + b.width) - max a.x b.x ≤ 0 :=
        sub_nonpos.mpr (le_of_not_lt h1)
      rw [max_eq_left this, zero_mul]
    · have : min (a.y + a.height) (b.y + b.height) - max a.y b.y ≤ 0 :=
        sub_nonpos.mpr (le_of_not_lt h2)
      rw [max_eq_left this, mul_zero]

/-- C5 (amended): `computeIoU` always lies in `[0,1]` and is symmetric;
it equals `1` on the diagonal for every region of positive width and
height (for a degenerate region `computeIoU a a = 0`, refuting the
unrestricted claim — see the counterexample); and it is `0` exactly when
the two regions do not overlap. -/
theorem C5_amended (a b : FaceBox) :
    0 ≤ computeIoU a b ∧ computeIoU a b ≤ 1 ∧
      computeIoU a b = computeIoU b a ∧
      (0 < a.width → 0 < a.height → computeIoU a a = 1) ∧
      (computeIoU a b = 0 ↔ ¬ boxOverlap a b) := by
  refine ⟨?_, ?_, ?_, ?_, ?_⟩
  · rw [computeIoU_eq_interArea]
    split_ifs with h
    · exact le_refl 0
    · obtain ⟨hp, hla, hlb, _⟩ := interArea_facts a b h
      have hd : 0 < a.width * a.height + b.width * b.height - interArea a b := by linarith
      exact (div_pos hp hd).le
  · rw [computeIoU_eq_interArea]
    split_ifs with h
    · exact zero_le_one
    · obtain ⟨hp, hla, hlb, _⟩ := interArea_facts a b h
      have hd : 0 < a.width * a.height + b.width * b.height - interArea a b := by linarith
      rw [div_le_one hd]
      linarith
  · rw [computeIoU_eq_interArea, computeIoU_eq_interArea, interArea_comm,
      add_comm (a.width * a.height) (b.width * b.height)]
  · intro hw hh
    have hIA : interArea a a = a.width * a.height := by
      unfold interArea
      rw [min_self, max_self, min_self, max_self, add_sub_cancel_left, add_sub_cancel_left,
        max_eq_right hw.le, max_eq_right hh.le]
    have hpos : 0 < a.width * a.height := mul_pos hw hh
    rw [computeIoU_eq_interArea, hIA, if_neg (ne_of_gt hpos)]
    have harith : a.width * a.height + a.width * a.height - a.width * a.height =
        a.width * a.height := by ring
    rw [harith, div_self (ne_of_gt hpos)]
  · rw [computeIoU_eq_interArea]
    split_ifs with h
    · exact ⟨fun _ => (interArea_eq_zero_iff a b).mp h, fun _ => rfl⟩
    · constructor
      · intro hdiv
        exfalso
        obtain ⟨hp, hla, hlb, _⟩ := interArea_facts a b h
        have hd : 0 < a.width * a.height + b.width * b.height - interArea a b := by linarith
        have hlt := div_pos hp hd
        rw [hdiv] at hlt
        exact lt_irrefl 0 hlt
      · intro hno
        exact absurd ((interArea_eq_zero_iff a b).mpr hno) h

/-- A width- and height-zero region, legal under the data model (which
only requires `width, height ≥ 0`). -/
def degenBox : FaceBox :=
  { x := 0, y := 0, width := 0, height := 0, source := "degen", score := 1 }

/-- C5 counterexample: for the degenerate (but data-model-legal) region
`degenBox`, `computeIoU degenBox degenBox = 0`, not `1` as the claim
states for every region. -/
theorem C5_counterexample :
    0 ≤ degenBox.width ∧ 0 ≤ degenBox.height ∧ computeIoU degenBox degenBox ≠ 1 := by
  have h : computeIoU degenBox degenBox = 0 := by
    norm_num [computeIoU, degenBox]
  refine ⟨le_refl 0, le_refl 0, ?_⟩
  rw [h]
  norm_num

/-- A concrete unit box used to witness the amended C5 statement. -/
def unitBox : FaceBox :=
  { x := 0, y := 0, width := 1, height := 1, source := "unit", score := 1 }

/-- Witness for `C5_amended` at a concrete positive-extent box. -/
theorem C5_witness :
    0 < unitBox.width ∧ 0 < unitBox.height ∧ computeIoU unitBox unitBox = 1 :=
  ⟨by norm_num [unitBox], by norm_num [unitBox],
    (C5_amended unitBox unitBox).2.2.2.1 (by norm_num [unitBox]) (by norm_num [unitBox])⟩

/-- Stable insertion of a box into a descending-by-score list: the box is
placed before the first element whose score is not larger.  Together with
`sortByScoreDesc` this models the JavaScript
`[...boxes].sort((a, b) => b.score - a.score)` — a stable descending sort
(stability is guaranteed by the language; the stable descending order of a
list is unique, so any stable implementation agrees with the engine's). -/
def insertByScore (b : FaceBox) : List FaceBox → List FaceBox
  | [] => [b]
  | a :: rest => if b.score < a.score then a :: insertByScore b rest else b :: a :: rest

/-- Stable descending-by-score sort; see `insertByScore`. -/
def sortByScoreDesc : List FaceBox → List FaceBox
  | [] => []
  | b :: rest => insertByScore b (sortByScoreDesc rest)

/-- Mirrors the in-place expansion in `deduplicateBoxes`: the kept box is
grown to the bounding union of itself and the absorbed box; its `source`
and `score` fields are left unchanged. -/
def absorb (kept box : FaceBox) : FaceBox :=
  let x1 := min kept.x box.x
  let y1 := min kept.y box.y
  let x2 := max (kept.x + kept.width) (box.x + box.width)
  let y2 := max (kept.y + kept.height) (box.y + box.height)
  { kept with x := x1, y := y1, width := x2 - x1, height := y2 - y1 }

/-- Inner loop of `deduplicateBoxes`: scan the kept list in order; the
first kept box whose IoU with `box` exceeds the threshold absorbs it (and
the scan breaks); if none matches, `box` is appended at the end. -/
def insertBox (iouThreshold : ℚ) (keep : List FaceBox) (box : FaceBox) : List FaceBox :=
  match keep with
  | [] => [box]
  | kept :: rest =>
    if iouThreshold < computeIoU box kept then absorb kept box :: rest
    else kept :: insertBox iouThreshold rest box

/-- Outer loop of `deduplicateBoxes` over the score-sorted candidates. -/
def dedupLoop (iouThreshold : ℚ) : List FaceBox → List FaceBox → List FaceBox
  | keep, [] => keep
  | keep, box :: rest => dedupLoop iouThreshold (insertBox iouThreshold keep box) rest

/-- Mirrors `deduplicateBoxes(boxes, iouThreshold)` of `aiService.ts`
(the pipeline always passes the threshold `0.3` explicitly). -/
def deduplicateBoxes (boxes : List FaceBox) (iouThreshold : ℚ) : List FaceBox :=
  match boxes with
  | [] => []
  | _ => dedupLoop iouThreshold [] (sortByScoreDesc boxes)

/-- Rectangle containment between boxes (edge-wise). -/
def boxContains (k b : FaceBox) : Prop :=
  k.x ≤ b.x ∧ k.y ≤ b.y ∧ b.x + b.width ≤ k.x + k.width ∧
    b.y + b.height ≤ k.y + k.height

lemma boxContains_refl (b : FaceBox) : boxContains b b :=
  ⟨le_refl _, le_refl _, le_refl _, le_refl _⟩

lemma boxContains_trans {a b c : FaceBox} (h1 : boxContains a b) (h2 : boxContains b c) :
    boxContains a c :=
  ⟨le_trans h1.1 h2.1, le_trans h1.2.1 h2.2.1, le_trans h2.2.2.1 h1.2.2.1,
    le_trans h2.2.2.2 h1.2.2.2⟩

lemma absorb_contains_left (kept box : FaceBox) : boxContains (absorb kept box) kept := by
  unfold absorb boxContains
  refine ⟨min_le_left _ _, min_le_left _ _, ?_, ?_⟩ <;>
    · dsimp only
      have h1 := le_max_left (kept.x + kept.width) (box.x + box.width)
      have h2 := le_max_left (kept.y + kept.height) (box.y + box.height)
      linarith

lemma absorb_contains_right (kept box : FaceBox) : boxContains (absorb kept box) box := by
  unfold absorb boxContains
  refine ⟨min_le_right _ _, min_le_right _ _, ?_, ?_⟩ <;>
    · dsimp only
      have h1 := le_max_right (kept.x + kept.width) (box.x + box.width)
      have h2 := le_max_right (kept.y + kept.height) (box.y + box.height)
      linarith

lemma absorb_score (kept box : FaceBox) : (absorb kept box).score = kept.score := rfl

lemma mem_insertByScore {c b : FaceBox} {l : List FaceBox} :
    c ∈ insertByScore b l ↔ c = b ∨ c ∈ l := by
  induction l with
  | nil => simp [insertByScore]
  | cons a rest ih =>
    unfold insertByScore
    split_ifs with h
    · simp only [List.mem_cons, ih]
      tauto
    · simp only [List.mem_cons]

lemma mem_sortByScoreDesc {c : FaceBox} {l : List FaceBox} :
    c ∈ sortByScoreDesc l ↔ c ∈ l := by
  induction l with
  | nil => simp [sortByScoreDesc]
  | cons b rest ih =>
    unfold sortByScoreDesc
    rw [mem_insertByScore, ih, List.mem_cons]

lemma pairwise_insertByScore {b : FaceBox} {l : List FaceBox}
    (h : List.Pairwise (fun a c => c.score ≤ a.score) l) :
    List.Pairwise (fun a c => c.score ≤ a.score) (insertByScore b l) := by
  induction l with
  | nil => simp [insertByScore]
  | cons a rest ih =>
    rw [List.pairwise_cons] at h
    unfold insertByScore
    split_ifs with hlt
    · rw [List.pairwise_cons]
      refine ⟨?_, ih h.2⟩
      intro c hc
      rcases mem_insertByScore.mp hc with rfl | hc
      · exact hlt.le
      · exact h.1 c hc
    · rw [List.pairwise_cons]
      refine ⟨?_, List.pairwise_cons.mpr h⟩
      intro c hc
      rcases List.mem_cons.mp hc with rfl | hc
      · exact le_of_not_lt hlt
      · exact le_trans (h.1 c hc) (le_of_not_lt hlt)

lemma sorted_sortByScoreDesc (l : List FaceBox) :
    List.Pairwise (fun a c => c.score ≤ a.score) (sortByScoreDesc l) := by
  induction l with
  | nil => simp [sortByScoreDesc]
  | cons b rest ih => exact pairwise_insertByScore ih

lemma insertByScore_eq_cons {b : FaceBox} {l : List FaceBox}
    (h : ∀ a ∈ l, a.score ≤ b.score) : insertByScore b l = b :: l := by
  cases l with
  | nil => rfl
  | cons a rest =>
    unfold insertByScore
    rw [if_neg (not_lt.mpr (h a (List.mem_cons_self a rest)))]

lemma sortByScoreDesc_eq_self {l : List FaceBox}
    (h : List.Pairwise (fun a c => c.score ≤ a.score) l) : sortByScoreDesc l = l := by
  induction l with
  | nil => rfl
  | cons b rest ih =>
    rw [List.pairwise_cons] at h
    unfold sortByScoreDesc
    rw [ih h.2, insertByScore_eq_cons h.1]

lemma insertBox_old (τ : ℚ) (keep : List FaceBox) (b : FaceBox) :
    ∀ k0 ∈ keep, ∃ k ∈ insertBox τ keep b, boxContains k k0 ∧ k.score = k0.score := by
  induction keep with
  | nil => intro k0 h; exact absurd h (List.not_mem_nil k0)
  | cons kept rest ih =>
    intro k0 hk0
    unfold insertBox
    split_ifs with h
    · rcases List.mem_cons.mp hk0 with rfl | hmem
      · exact ⟨absorb k0 b, List.mem_cons_self _ _, absorb_contains_left k0 b, absorb_score k0 b⟩
      · exact ⟨k0, List.mem_cons_of_mem _ hmem, boxContains_refl k0, rfl⟩
    · rcases List.mem_cons.mp hk0 with rfl | hmem
      · exact ⟨k0, List.mem_cons_self _ _, boxContains_refl k0, rfl⟩
      · obtain ⟨k, hk, hc, hs⟩ := ih k0 hmem
        exact ⟨k, List.mem_cons_of_mem _ hk, hc, hs⟩

lemma insertBox_covers (τ : ℚ) (keep : List FaceBox) (b : FaceBox)
    (h : ∀ k ∈ keep, b.score ≤ k.score) :
    ∃ k ∈ insertBox τ keep b, boxContains k b ∧ b.score ≤ k.score := by
  induction keep with
  | nil => exact ⟨b, by simp [insertBox], boxContains_refl b, le_refl _⟩
  | cons kept rest ih =>
    unfold insertBox
    split_ifs with hio
    · refine ⟨absorb kept b, List.mem_cons_self _ _, absorb_contains_right kept b, ?_⟩
      rw [absorb_score]
      exact h kept (List.mem_cons_self _ _)
    · obtain ⟨k, hk, hc, hs⟩ := ih fun k hk => h k (List.mem_cons_of_mem _ hk)
      exact ⟨k, List.mem_cons_of_mem _ hk, hc, hs⟩

lemma insertBox_score_src (τ : ℚ) (keep : List FaceBox) (b : FaceBox) :
    ∀ k ∈ insertBox τ keep b, (∃ k0 ∈ keep, k.score = k0.score) ∨ k.score = b.score := by
  induction keep with
  | nil =>
    intro k hk
    simp only [insertBox, List.mem_singleton] at hk
    right
    rw [hk]
  | cons kept rest ih =>
    intro k hk
    unfold insertBox at hk
    split_ifs at hk with hio
    · rcases List.mem_cons.mp hk with rfl | hmem
      · exact Or.inl ⟨kept, List.mem_cons_self _ _, absorb_score kept b⟩
      · exact Or.inl ⟨k, List.mem_cons_of_mem _ hmem, rfl⟩
    · rcases List.mem_cons.mp hk with rfl | hmem
      · exact Or.inl ⟨k, List.mem_cons_self _ _, rfl⟩
      · rcases ih k hmem with ⟨k0, hk0, hs⟩ | hs
        · exact Or.inl ⟨k0, List.mem_cons_of_mem _ hk0, hs⟩
        · exact Or.inr hs

lemma insertBox_scores (τ : ℚ) (keep : List FaceBox) (b : FaceBox) :
    (insertBox τ keep b).map FaceBox.score = keep.map FaceBox.score ++ [b.score] ∨
      (insertBox τ keep b).map FaceBox.score = keep.map FaceBox.score := by
  induction keep with
  | nil => left; rfl
  | cons kept rest ih =>
    unfold insertBox
    split_ifs with hio
    · right
      simp only [List.map_cons, absorb_score]
    · rcases ih with h | h
      · left
        simp only [List.map_cons, h, List.cons_append]
      · right
        simp only [List.map_cons, h]

lemma dedupLoop_main (τ : ℚ) :
    ∀ (rest keep : List FaceBox),
      (∀ k ∈ keep, ∀ r ∈ rest, r.score ≤ k.score) →
      List.Pairwise (fun a c => c.score ≤ a.score) rest →
      List.Pairwise (· ≥ ·) (keep.map FaceBox.score) →
      (∀ k0 ∈ keep, ∃ k ∈ dedupLoop τ keep rest, boxContains k k0 ∧ k.score = k0.score) ∧
        (∀ b ∈ rest, ∃ k ∈ dedupLoop τ keep rest, boxContains k b ∧ b.score ≤ k.score) ∧
        (∀ k ∈ dedupLoop τ keep rest,
          (∃ k0 ∈ keep, k.score = k0.score) ∨ (∃ b ∈ rest, k.score = b.score)) ∧
        List.Pairwise (· ≥ ·) ((dedupLoop τ keep rest).map FaceBox.score) := by
  intro rest
  induction rest with
  | nil =>
    intro keep hcross hsort hkeep
    simp only [dedupLoop]
    refine ⟨?_, ?_, ?_, hkeep⟩
    · intro k0 hk0
      exact ⟨k0, hk0, boxContains_refl k0, rfl⟩
    · intro b hb
      exact absurd hb (List.not_mem_nil b)
    · intro k hk
      exact Or.inl ⟨k, hk, rfl⟩
  | cons b rest' ih =>
    intro keep hcross hsort hkeep
    simp only [dedupLoop]
    rw [List.pairwise_cons] at hsort
    have hb_le : ∀ k ∈ keep, b.score ≤ k.score := fun k hk =>
      hcross k hk b (List.mem_cons_self _ _)
    have hcross' : ∀ k ∈ insertBox τ keep b, ∀ r ∈ rest', r.score ≤ k.score := by
      intro k hk r hr
      rcases insertBox_score_src τ keep b k hk with ⟨k0, hk0, hs⟩ | hs
      · rw [hs]
        exact hcross k0 hk0 r (List.mem_cons_of_mem _ hr)
      · rw [hs]
        exact hsort.1 r hr
    have hkeep' : List.Pairwise (· ≥ ·) ((insertBox τ keep b).map FaceBox.score) := by
      rcases insertBox_scores τ keep b with h | h
      · rw [h, List.pairwise_append]
        refine ⟨hkeep, List.pairwise_singleton _ _, ?_⟩
        intro s hs t ht
        rw [List.mem_singleton] at ht
        subst ht
        obtain ⟨k0, hk0, rfl⟩ := List.mem_map.mp hs
        exact hb_le k0 hk0
      · rw [h]
        exact hkeep
    obtain ⟨IH1, IH2, IH3, IH4⟩ := ih (insertBox τ keep b) hcross' hsort.2 hkeep'
    refine ⟨?_, ?_, ?_, IH4⟩
    · intro k0 hk0
      obtain ⟨k1, hk1, hc1, hs1⟩ := insertBox_old τ keep b k0 hk0
      obtain ⟨k, hk, hc, hs⟩ := IH1 k1 hk1
      exact ⟨k, hk, boxContains_trans hc hc1, hs.trans hs1⟩
    · intro b' hb'
      rcases List.mem_cons.mp hb' with rfl | hmem
      · obtain ⟨k1, hk1, hc1, hs1⟩ := insertBox_covers τ keep b' hb_le
        obtain ⟨k, hk, hc, hs⟩ := IH1 k1 hk1
        exact ⟨k, hk, boxContains_trans hc hc1, le_trans hs1 (le_of_eq hs.symm)⟩
      · exact IH2 b' hmem
    · intro k hk
      rcases IH3 k hk with ⟨k0, hk0, hs⟩ | ⟨r, hr, hs⟩
      · rcases insertBox_score_src τ keep b k0 hk0 with ⟨k00, hk00, hs0⟩ | hs0
        · exact Or.inl ⟨k00, hk00, hs.trans hs0⟩
        · exact Or.inr ⟨b, List.mem_cons_self _ _, hs.trans hs0⟩
      · exact Or.inr ⟨r, List.mem_cons_of_mem _ hr, hs⟩

lemma dedup_main (l : List FaceBox) (τ : ℚ) :
    (∀ b ∈ l, ∃ k ∈ deduplicateBoxes l τ, boxContains k b ∧ b.score ≤ k.score) ∧
      (∀ k ∈ deduplicateBoxes l τ, ∃ b ∈ l, k.score = b.score) ∧
      List.Pairwise (fun a c => c.score ≤ a.score) (deduplicateBoxes l τ) := by
  cases l with
  | nil =>
    refine ⟨?_, ?_, ?_⟩ <;> simp [deduplicateBoxes]
  | cons b0 rest0 =>
    have hunfold : deduplicateBoxes (b0 :: rest0) τ =
        dedupLoop τ [] (sortByScoreDesc (b0 :: rest0)) := rfl
    obtain ⟨M1, M2, M3, M4⟩ := dedupLoop_main τ (sortByScoreDesc (b0 :: rest0)) []
      (fun k hk => absurd hk (List.not_mem_nil k))
      (sorted_sortByScoreDesc _)
      (by simp)
    rw [hunfold]
    refine ⟨?_, ?_, ?_⟩
    · intro b hb
      exact M2 b (mem_sortByScoreDesc.mpr hb)
    · intro k hk
      rcases M3 k hk with ⟨k0, hk0, _⟩ | ⟨b, hb, hs⟩
      · exact absurd hk0 (List.not_mem_nil k0)
      · exact ⟨b, mem_sortByScoreDesc.mp hb, hs⟩
    · exact List.pairwise_map.mp M4

/-- C1 (amended): at the default threshold `0.3`, `deduplicateBoxes`
returns regions that need not be pairwise disjoint or minimal (see the
counterexample); what does hold is that every returned region carries the
score of one of the candidates, and every candidate is absorbed into some
returned region that contains it and whose score is at least the
candidate's — so each cluster is anchored at its maximum-score candidate. -/
theorem C1_amended (l : List FaceBox) :
    (∀ k ∈ deduplicateBoxes l (3/10), ∃ b ∈ l, k.score = b.score) ∧
      (∀ b ∈ l, ∃ k ∈ deduplicateBoxes l (3/10), boxContains k b ∧ b.score ≤ k.score) :=
  ⟨(dedup_main l (3/10)).2.1, (dedup_main l (3/10)).1⟩

/-- Candidate region used in the C1 counterexample. -/
def boxA : FaceBox := { x := 0, y := 0, width := 10, height := 10, source := "a", score := 9/10 }

/-- Candidate region used in the C1 counterexample; it overlaps `boxA`
with IoU `10/190 < 0.3`. -/
def boxB : FaceBox := { x := 9, y := 0, width := 10, height := 10, source := "b", score := 8/10 }

/-- C1 counterexample: two candidates whose IoU (`10/190`) is below the
`0.3` threshold are both returned unchanged, yet they overlap — the
returned set is not pairwise disjoint. -/
theorem C1_counterexample :
    deduplicateBoxes [boxA, boxB] (3/10) = [boxA, boxB] ∧ boxOverlap boxA boxB := by
  constructor
  · norm_num [deduplicateBoxes, dedupLoop, insertBox, sortByScoreDesc, insertByScore,
      computeIoU, boxA, boxB, max_def, min_def]
  · norm_num [boxOverlap, boxA, boxB, max_def, min_def]

/-- Witness for `C1_amended` at a concrete singleton input. -/
theorem C1_witness :
    ∃ k ∈ deduplicateBoxes [boxA] (3/10), boxContains k boxA ∧ boxA.score ≤ k.score :=
  (C1_amended [boxA]).2 boxA (List.mem_cons_self _ _)

lemma insertBox_of_no_dup (τ : ℚ) (keep : List FaceBox) (b : FaceBox)
    (h : ∀ k ∈ keep, computeIoU b k ≤ τ) : insertBox τ keep b = keep ++ [b] := by
  induction keep with
  | nil => rfl
  | cons kept rest ih =>
    unfold insertBox
    rw [if_neg (not_lt.mpr (h kept (List.mem_cons_self _ _))),
      ih fun k hk => h k (List.mem_cons_of_mem _ hk)]
    rfl

lemma dedupLoop_of_pairwise (τ : ℚ) :
    ∀ (rest keep : List FaceBox),
      (∀ r ∈ rest, ∀ k ∈ keep, computeIoU r k ≤ τ) →
      List.Pairwise (fun a c => computeIoU c a ≤ τ) rest →
      dedupLoop τ keep rest = keep ++ rest := by
  intro rest
  induction rest with
  | nil =>
    intro keep _ _
    simp [dedupLoop]
  | cons b rest' ih =>
    intro keep hcross hp
    rw [List.pairwise_cons] at hp
    simp only [dedupLoop]
    rw [insertBox_of_no_dup τ keep b (hcross b (List.mem_cons_self _ _)),
      ih (keep ++ [b]) ?side hp.2]
    · simp
    case side =>
      intro r hr k hk
      rcases List.mem_append.mp hk with hk | hk
      · exact hcross r (List.mem_cons_of_mem _ hr) k hk
      · rw [List.mem_singleton] at hk
        subst hk
        exact hp.1 r hr

lemma dedup_fixed (m : List FaceBox) (τ : ℚ)
    (hsorted : List.Pairwise (fun a c => c.score ≤ a.score) m)
    (hlow : List.Pairwise (fun a c => computeIoU c a ≤ τ) m) :
    deduplicateBoxes m τ = m := by
  cases m with
  | nil => rfl
  | cons b rest =>
    have hunfold : deduplicateBoxes (b :: rest) τ =
        dedupLoop τ [] (sortByScoreDesc (b :: rest)) := rfl
    rw [hunfold, sortByScoreDesc_eq_self hsorted,
      dedupLoop_of_pairwise τ (b :: rest) [] (fun r _ k hk => absurd hk (List.not_mem_nil k))
        hlow]
    rfl

/-- C3 (amended): `deduplicateBoxes` is not idempotent in general (see the
counterexample: absorbing a candidate can grow a kept region until it
overlaps another kept region above threshold, so a second pass merges
further); it is idempotent exactly on outputs whose surviving regions
pairwise have IoU at most the threshold. -/
theorem C3_amended (l : List FaceBox) (τ : ℚ)
    (hlow : List.Pairwise (fun a c => computeIoU c a ≤ τ) (deduplicateBoxes l τ)) :
    deduplicateBoxes (deduplicateBoxes l τ) τ = deduplicateBoxes l τ :=
  dedup_fixed _ τ (dedup_main l τ).2.2 hlow

/-- Highest-score candidate of the C3 counterexample. -/
def mergeA : FaceBox := { x := 0, y := 0, width := 10, height := 10, source := "a", score := 9/10 }

/-- Second candidate of the C3 counterexample, disjoint from `mergeA`. -/
def mergeB : FaceBox :=
  { x := 11, y := 0, width := 10, height := 10, source := "b", score := 8/10 }

/-- Third candidate of the C3 counterexample; absorbing it grows `mergeA`
until the grown region overlaps `mergeB` with IoU `1/3 > 0.3`. -/
def mergeC : FaceBox := { x := 2, y := 0, width := 16, height := 10, source := "c", score := 7/10 }

/-- The region `mergeA` after absorbing `mergeC`. -/
def mergeA18 : FaceBox :=
  { x := 0, y := 0, width := 18, height := 10, source := "a", score := 9/10 }

/-- The region `mergeA18` after absorbing `mergeB` on the second pass. -/
def mergeA21 : FaceBox :=
  { x := 0, y := 0, width := 21, height := 10, source := "a", score := 9/10 }

/-- C3 counterexample: running `deduplicateBoxes` on its own output merges
further — the first pass returns two regions, the second collapses them
to one — so the Deduplicator is not idempotent. -/
theorem C3_counterexample :
    deduplicateBoxes (deduplicateBoxes [mergeA, mergeB, mergeC] (3/10)) (3/10) ≠
      deduplicateBoxes [mergeA, mergeB, mergeC] (3/10) := by
  have h1 : deduplicateBoxes [mergeA, mergeB, mergeC] (3/10) = [mergeA18, mergeB] := by
    norm_num [deduplicateBoxes, dedupLoop, insertBox, sortByScoreDesc, insertByScore,
      computeIoU, absorb, mergeA, mergeB, mergeC, mergeA18, max_def, min_def, FaceBox.mk.injEq]
  have h2 : deduplicateBoxes [mergeA18, mergeB] (3/10) = [mergeA21] := by
    norm_num [deduplicateBoxes, dedupLoop, insertBox, sortByScoreDesc, insertByScore,
      computeIoU, absorb, mergeA18, mergeB, mergeA21, max_def, min_def, FaceBox.mk.injEq]
  rw [h1, h2]
  simp [mergeA21, mergeA18, mergeB]

/-- Witness for `C3_amended` at a concrete input: a single region is a
fixed point of the Deduplicator. -/
theorem C3_witness :
    deduplicateBoxes (deduplicateBoxes [boxA] (3/10)) (3/10) = deduplicateBoxes [boxA] (3/10) := by
  apply C3_amended
  have h : deduplicateBoxes [boxA] (3/10) = [boxA] := rfl
  rw [h]
  exact List.pairwise_singleton _ _

/-- Prediction shape returned by the BlazeFace collaborator:
`{topLeft: [x, y], bottomRight: [x, y], probability?: [p]}`. -/
structure RawPred where
  tlx : ℚ
  tly : ℚ
  brx : ℚ
  bry : ℚ
  prob : Option ℚ
deriving DecidableEq, Repr

/-- Pass-1 conversion in `detectWithBlazeFaceMultiScale`: full-image
prediction, default score `0.9`. -/
def predToBoxFull (p : RawPred) : FaceBox :=
  { x := p.tlx, y := p.tly, width := p.brx - p.tlx, height := p.bry - p.tly,
    source := "blaze-full", score := p.prob.getD (9/10) }

/-- Pass-2 conversion: tile-local coordinates are shifted by the tile
origin (`start[0] + x`, `start[1] + y`), default score `0.8`. -/
def predToBoxTile (ox oy : ℕ) (p : RawPred) : FaceBox :=
  { x := p.tlx + ox, y := p.tly + oy, width := p.brx - p.tlx, height := p.bry - p.tly,
    source := "blaze-tile", score := p.prob.getD (8/10) }

/-- Origins visited by `for (let v = 0; v < limit; v += stepSize)`: the
multiples of `stepSize` below `limit`.  (For `stepSize = 0` the source
loop would never terminate; that value only arises for images of
`min(width, height) ≤ 1` pixels, and the tiling theorems assume
`0 < stepSize`.) -/
def tileOrigins (stepSize limit : ℕ) : List ℕ :=
  (List.range ((limit + stepSize - 1) / stepSize)).map (· * stepSize)

/-- The `(x, y)` tile origins in loop order (`y` outer, `x` inner). -/
def tileList (stepSize w h : ℕ) : List (ℕ × ℕ) :=
  (tileOrigins stepSize h).flatMap fun y => (tileOrigins stepSize w).map fun x => (x, y)

/-- Pass-2 tile scanning together with the surrounding try/catch of
`detectWithBlazeFaceMultiScale`: tiles are processed in loop order, tiles
whose crop is under 100 px on either axis are skipped, and a rejected
detector call aborts the remaining tiles (the catch block logs and the
boxes accumulated so far are returned). -/
def runTilesCatch (dt : ℕ → ℕ → ℕ → ℕ → Except String (List RawPred))
    (tileSize w h : ℕ) : List (ℕ × ℕ) → List FaceBox
  | [] => []
  | (x, y) :: rest =>
    let cropW := min tileSize (w - x)
    let cropH := min tileSize (h - y)
    if cropW < 100 ∨ cropH < 100 then runTilesCatch dt tileSize w h rest
    else
      match dt x y cropW cropH with
      | .error _ => []
      | .ok ps => ps.map (predToBoxTile x y) ++ runTilesCatch dt tileSize w h rest

/-- Mirrors `detectWithBlazeFaceMultiScale`: pass 1 on the full image,
then — only when the image exceeds 400 px on some side — overlapping
tiles of size `min(imgW, imgH, 640)` with step `floor(tileSize * 0.5)`.
`df` is the full-image detector call, `dt x y cropW cropH` the call on
the tile cropped at `(x, y)`; an `error` value models a thrown/rejected
collaborator call, handled by the function's own catch. -/
def detectWithBlazeFaceMultiScale (df : Except String (List RawPred))
    (dt : ℕ → ℕ → ℕ → ℕ → Except String (List RawPred)) (imgW imgH : ℕ) : List FaceBox :=
  match df with
  | .error _ => []
  | .ok ps =>
    let pass1 := ps.map predToBoxFull
    if 400 < imgW ∨ 400 < imgH then
      let tileSize := min (min imgW imgH) 640
      let stepSize := tileSize / 2
      pass1 ++ runTilesCatch dt tileSize imgW imgH (tileList stepSize imgW imgH)
    else pass1

/-- The `tileSize` the scanner chooses: `Math.min(imgW, imgH, 640)`. -/
def tileSizeOf (w h : ℕ) : ℕ := min (min w h) 640

/-- The scanner's step: `Math.floor(tileSize * 0.5)`. -/
def stepOf (w h : ℕ) : ℕ := tileSizeOf w h / 2

/-- Cropped tile width at origin column `x`: `Math.min(tileSize, imgW - x)`. -/
def cropWOf (w h x : ℕ) : ℕ := min (tileSizeOf w h) (w - x)

/-- Cropped tile height at origin row `y`: `Math.min(tileSize, imgH - y)`. -/
def cropHOf (w h y : ℕ) : ℕ := min (tileSizeOf w h) (h - y)

lemma mem_tileOrigins {stepSize limit v : ℕ} (hstep : 0 < stepSize) :
    v ∈ tileOrigins stepSize limit ↔ stepSize ∣ v ∧ v < limit := by
  unfold tileOrigins
  rw [List.mem_map]
  constructor
  · rintro ⟨k, hk, rfl⟩
    rw [List.mem_range, Nat.lt_iff_add_one_le, Nat.le_div_iff_mul_le hstep] at hk
    have hexp : (k + 1) * stepSize = k * stepSize + stepSize := by ring
    rw [hexp] at hk
    exact ⟨dvd_mul_left stepSize k, by omega⟩
  · rintro ⟨⟨k, rfl⟩, hv⟩
    refine ⟨k, ?_, by ring⟩
    rw [List.mem_range, Nat.lt_iff_add_one_le, Nat.le_div_iff_mul_le hstep]
    have hexp : (k + 1) * stepSize = stepSize * k + stepSize := by ring
    rw [hexp]
    omega

lemma mem_tileList {stepSize w h : ℕ} {t : ℕ × ℕ} (hstep : 0 < stepSize) :
    t ∈ tileList stepSize w h ↔
      stepSize ∣ t.1 ∧ t.1 < w ∧ stepSize ∣ t.2 ∧ t.2 < h := by
  unfold tileList
  rw [List.mem_flatMap]
  constructor
  · rintro ⟨y, hy, hx⟩
    rw [List.mem_map] at hx
    obtain ⟨x, hxm, rfl⟩ := hx
    rw [mem_tileOrigins hstep] at hy hxm
    exact ⟨hxm.1, hxm.2, hy.1, hy.2⟩
  · rintro ⟨hd1, hl1, hd2, hl2⟩
    refine ⟨t.2, (mem_tileOrigins hstep).mpr ⟨hd2, hl2⟩, ?_⟩
    rw [List.mem_map]
    exact ⟨t.1, (mem_tileOrigins hstep).mpr ⟨hd1, hl1⟩, rfl⟩

lemma mem_runTilesCatch {dt : ℕ → ℕ → ℕ → ℕ → Except String (List RawPred)}
    {tileSize w h : ℕ} (hok : ∀ x y cw ch, ∃ ps, dt x y cw ch = Except.ok ps) :
    ∀ (ts : List (ℕ × ℕ)) (b : FaceBox),
      b ∈ runTilesCatch dt tileSize w h ts ↔
        ∃ t ∈ ts, ¬(min tileSize (w - t.1) < 100 ∨ min tileSize (h - t.2) < 100) ∧
          ∃ ps p, dt t.1 t.2 (min tileSize (w - t.1)) (min tileSize (h - t.2)) =
              Except.ok ps ∧ p ∈ ps ∧ b = predToBoxTile t.1 t.2 p := by
  intro ts
  induction ts with
  | nil =>
    intro b
    simp [runTilesCatch]
  | cons t rest ih =>
    intro b
    obtain ⟨x, y⟩ := t
    simp only [runTilesCatch]
    split_ifs with hskip
    · rw [ih b]
      constructor
      · rintro ⟨t', ht', hns, hrest⟩
        exact ⟨t', List.mem_cons_of_mem _ ht', hns, hrest⟩
      · rintro ⟨t', ht', hns, hrest⟩
        rcases List.mem_cons.mp ht' with rfl | hmem
        · exact absurd hskip hns
        · exact ⟨t', hmem, hns, hrest⟩
    · obtain ⟨ps, hps⟩ := hok x y (min tileSize (w - x)) (min tileSize (h - y))
      rw [hps]
      simp only [List.mem_append, List.mem_map, ih b]
      constructor
      · rintro (⟨p, hp, rfl⟩ | ⟨t', ht', hns, hrest⟩)
        · exact ⟨(x, y), List.mem_cons_self _ _, hskip, ps, p, hps, hp, rfl⟩
        · exact ⟨t', List.mem_cons_of_mem _ ht', hns, hrest⟩
      · rintro ⟨t', ht', hns, ps', p, hps', hp, rfl⟩
        rcases List.mem_cons.mp ht' with rfl | hmem
        · left
          refine ⟨p, ?_, rfl⟩
          rw [hps] at hps'
          injection hps' with hh
          rw [hh]
          exact hp
        · right
          exact ⟨t', hmem, hns, ps', p, hps', hp, rfl⟩

/-- The tile-local prediction of the spec's remap example: top-left
`(10, 10)`. -/
def remapPred : RawPred := { tlx := 10, tly := 10, brx := 30, bry := 40, prob := none }

/-- C6: the tiled scanner runs pass 2 exactly when `max(width, height) >
400`, using `tileSize = min(width, height, 640)` and `step =
floor(tileSize * 0.5)`; the tiles scanned are exactly the step-grid
origins below the image bounds whose crop is at least 100 px on both
axes; and each tile-local detection is remapped by adding the tile
origin — a detection at local `(10, 10)` in the tile at `(200, 300)` is
reported at `(210, 310)`. -/
theorem C6_tiling (imgW imgH : ℕ) (ps0 : List RawPred)
    (dt : ℕ → ℕ → ℕ → ℕ → Except String (List RawPred))
    (hok : ∀ x y cw ch, ∃ ps, dt x y cw ch = Except.ok ps) :
    (max imgW imgH ≤ 400 →
      detectWithBlazeFaceMultiScale (Except.ok ps0) dt imgW imgH = ps0.map predToBoxFull) ∧
      (400 < max imgW imgH → 0 < stepOf imgW imgH →
        ∀ b, b ∈ detectWithBlazeFaceMultiScale (Except.ok ps0) dt imgW imgH ↔
          b ∈ ps0.map predToBoxFull ∨
            ∃ x y, stepOf imgW imgH ∣ x ∧ x < imgW ∧ stepOf imgW imgH ∣ y ∧ y < imgH ∧
              100 ≤ cropWOf imgW imgH x ∧ 100 ≤ cropHOf imgW imgH y ∧
              ∃ ps p, dt x y (cropWOf imgW imgH x) (cropHOf imgW imgH y) = Except.ok ps ∧
                p ∈ ps ∧ b = predToBoxTile x y p) ∧
      (predToBoxTile 200 300 remapPred).x = 210 ∧ (predToBoxTile 200 300 remapPred).y = 310 := by
  refine ⟨?_, ?_, ?_, ?_⟩
  · intro hle
    rw [max_le_iff] at hle
    have hcond : ¬(400 < imgW ∨ 400 < imgH) := by
      push_neg
      exact hle
    simp only [detectWithBlazeFaceMultiScale]
    rw [if_neg hcond]
  · intro hgt hstep b
    have hcond : 400 < imgW ∨ 400 < imgH := lt_max_iff.mp hgt
    simp only [stepOf, tileSizeOf, cropWOf, cropHOf] at hstep ⊢
    simp only [detectWithBlazeFaceMultiScale]
    rw [if_pos hcond, List.mem_append, mem_runTilesCatch hok]
    constructor
    · rintro (h1 | ⟨t, ht, hns, ps, p, hps, hp, rfl⟩)
      · exact Or.inl h1
      · right
        rw [mem_tileList hstep] at ht
        push_neg at hns
        exact ⟨t.1, t.2, ht.1, ht.2.1, ht.2.2.1, ht.2.2.2, hns.1, hns.2, ps, p, hps, hp, rfl⟩
    · rintro (h1 | ⟨x, y, hdx, hlx, hdy, hly, hcw, hch, ps, p, hps, hp, rfl⟩)
      · exact Or.inl h1
      · right
        refine ⟨(x, y), ?_, ?_, ps, p, hps, hp, rfl⟩
        · rw [mem_tileList hstep]
          exact ⟨hdx, hlx, hdy, hly⟩
        · push_neg
          exact ⟨hcw, hch⟩
  · norm_num [predToBoxTile, remapPred]
  · norm_num [predToBoxTile, remapPred]

/-- Witness for `C6_tiling` at concrete inputs (a 500×500 image and a
detector that always succeeds), extracting the concrete remap fact. -/
theorem C6_witness :
    (predToBoxTile 200 300 remapPred).x = 210 ∧ (predToBoxTile 200 300 remapPred).y = 310 :=
  ⟨(C6_tiling 500 500 [] (fun _ _ _ _ => Except.ok []) fun _ _ _ _ => ⟨[], rfl⟩).2.2.1,
    (C6_tiling 500 500 [] (fun _ _ _ _ => Except.ok []) fun _ _ _ _ => ⟨[], rfl⟩).2.2.2⟩

/-- Prediction shape returned by the COCO-SSD collaborator:
`{class, score, bbox: [x, y, w, h]}`. -/
structure CocoPred where
  cls : String
  score : ℚ
  x : ℚ
  y : ℚ
  w : ℚ
  h : ℚ
deriving DecidableEq, Repr

/-- The head-approximation map of `detectHeadsFromPersons`:
`headHeight = h * 0.25`, `headWidth = w * 0.45`,
`headX = x + (w - headWidth) / 2`, anchored at the top edge `y`. -/
def headOf (p : CocoPred) : FaceBox :=
  let headHeight := p.h * (1/4)
  let headWidth := p.w * (9/20)
  let headX := p.x + (p.w - headWidth) / 2
  { x := headX, y := p.y, width := headWidth, height := headHeight,
    source := "coco-head", score := p.score }

/-- Mirrors `detectHeadsFromPersons`: filter the detections to
`class === 'person' && score > 0.35`, then map each to its head box; a
thrown/rejected detector call is caught and yields `[]`. -/
def detectHeadsFromPersons (preds : Except String (List CocoPred)) : List FaceBox :=
  match preds with
  | .error _ => []
  | .ok ps =>
    (ps.filter fun p => p.cls == "person" && decide ((7:ℚ)/20 < p.score)).map headOf

/-- The spec's example person box `{x:0, y:0, w:100, h:200}`. -/
def personPred : CocoPred :=
  { cls := "person", score := 1/2, x := 0, y := 0, w := 100, h := 200 }

/-- C7: every detection with `class == 'person'` and `score > 0.35` yields
a head region with `height = 0.25*h` and `width = 0.45*w`, anchored at the
person box's top edge and horizontally centered in it (equal margins on
both sides); on the person box `{x:0, y:0, w:100, h:200}` the head region
is `{x:27.5, y:0, w:45, h:50}`. -/
theorem C7_heads (preds : List CocoPred) (p : CocoPred)
    (hmem : p ∈ preds) (hcls : p.cls = "person") (hscore : (7:ℚ)/20 < p.score) :
    headOf p ∈ detectHeadsFromPersons (Except.ok preds) ∧
      (headOf p).height = p.h * (1/4) ∧ (headOf p).width = p.w * (9/20) ∧
      (headOf p).y = p.y ∧ (headOf p).score = p.score ∧
      (headOf p).x - p.x = (p.x + p.w) - ((headOf p).x + (headOf p).width) ∧
      headOf personPred =
        { x := 55/2, y := 0, width := 45, height := 50,
          source := "coco-head", score := 1/2 } := by
  refine ⟨?_, rfl, rfl, rfl, rfl, ?_, ?_⟩
  · simp only [detectHeadsFromPersons, List.mem_map]
    refine ⟨p, ?_, rfl⟩
    rw [List.mem_filter, Bool.and_eq_true, beq_iff_eq, decide_eq_true_eq]
    exact ⟨hmem, hcls, hscore⟩
  · simp only [headOf]
    ring
  · norm_num [headOf, personPred, FaceBox.mk.injEq]

/-- Witness for `C7_heads` on the spec's concrete person box. -/
theorem C7_witness :
    headOf personPred ∈ detectHeadsFromPersons (Except.ok [personPred]) ∧
      headOf personPred =
        { x := 55/2, y := 0, width := 45, height := 50,
          source := "coco-head", score := 1/2 } :=
  ⟨(C7_heads [personPred] personPred (List.mem_cons_self _ _) rfl
      (by norm_num [personPred])).1,
    (C7_heads [personPred] personPred (List.mem_cons_self _ _) rfl
      (by norm_num [personPred])).2.2.2.2.2.2⟩

/-- JavaScript `\s` whitespace characters that can occur in OCR tokens. -/
def isSpaceChar (c : Char) : Bool :=
  c == ' ' || c == '\t' || c == '\n' || c == '\r' || c == '\x0b' || c == '\x0c'

/-- JavaScript `\S` (non-whitespace). -/
def isNonSpace (c : Char) : Bool := !(isSpaceChar c)

/-- JavaScript `\d` (ASCII digit). -/
def isDigitChar (c : Char) : Bool := '0' ≤ c && c ≤ '9'

/-- The phone-rule separator class `[-.\s]`. -/
def isPhoneSep (c : Char) : Bool := c == '-' || c == '.' || isSpaceChar c

/-- `String.prototype.toUpperCase` on the ASCII range. -/
def jsToUpper (c : Char) : Char :=
  if 'a' ≤ c ∧ c ≤ 'z' then Char.ofNat (c.toNat - 32) else c

/-- Character class `[A-Z0-9]`. -/
def isUpperAlnum (c : Char) : Bool := ('A' ≤ c && c ≤ 'Z') || ('0' ≤ c && c ≤ '9')

/-- Search semantics of the email rule `/\S+@\S+\.\S+/.test(text)`: some
contiguous substring is a nonempty nonspace run, `@`, a nonempty nonspace
run, `.`, a nonempty nonspace run.  Equivalently, positions `i < j` hold
`@` and `.` with a nonspace character directly before the `@`, at least
one and only nonspace characters strictly between, and a nonspace
character directly after the `.`. -/
def emailTest (s : String) : Bool :=
  let cs := s.toList
  let n := cs.length
  (List.range n).any fun i =>
    (List.range n).any fun j =>
      decide (1 ≤ i) && decide (i + 2 ≤ j) && decide (j + 1 < n) &&
        (cs.getD i ' ' == '@') && (cs.getD j ' ' == '.') &&
        isNonSpace (cs.getD (i - 1) ' ') &&
        ((List.range n).all fun k => !(decide (i < k) && decide (k < j)) ||
          isNonSpace (cs.getD k ' ')) &&
        isNonSpace (cs.getD (j + 1) ' ')

/-- Search semantics of the phone rule `/\d{3}[-.\s]?\d{4}/.test(text)`:
somewhere in the token, three digits, an optional single separator from
`[-.\s]`, and four digits occur contiguously. -/
def phoneTest (s : String) : Bool :=
  let cs := s.toList
  let n := cs.length
  (List.range n).any fun i =>
    isDigitChar (cs.getD i 'x') && isDigitChar (cs.getD (i + 1) 'x') &&
      isDigitChar (cs.getD (i + 2) 'x') &&
      ((decide (i + 6 < n) && isDigitChar (cs.getD (i + 3) 'x') &&
          isDigitChar (cs.getD (i + 4) 'x') && isDigitChar (cs.getD (i + 5) 'x') &&
          isDigitChar (cs.getD (i + 6) 'x')) ||
        (decide (i + 7 < n) && isPhoneSep (cs.getD (i + 3) 'x') &&
          isDigitChar (cs.getD (i + 4) 'x') && isDigitChar (cs.getD (i + 5) 'x') &&
          isDigitChar (cs.getD (i + 6) 'x') && isDigitChar (cs.getD (i + 7) 'x')))

/-- The plate rule `/^[A-Z0-9]{4,9}$/.test(text.toUpperCase())`: the
token is uppercased first, then matched anchored at both ends. -/
def plateTest (s : String) : Bool :=
  let u := s.toList.map jsToUpper
  decide (4 ≤ u.length) && decide (u.length ≤ 9) && u.all isUpperAlnum

/-- C2 (amended): the plate rule accepts a token exactly when its
*uppercase conversion* is an uppercase alphanumeric string of length 4–9
with no separators; `"AB1234CD"` matches the plate rule, and `"hello"`
matches neither the email nor the phone rule but — contrary to the claim —
does match the plate rule, because `"HELLO"` is uppercase alphanumeric of
length 5. -/
theorem C2_amended (s : String) :
    (plateTest s = true ↔
      4 ≤ s.toList.length ∧ s.toList.length ≤ 9 ∧
        ∀ c ∈ s.toList.map jsToUpper, isUpperAlnum c = true) ∧
      plateTest "AB1234CD" = true ∧ plateTest "hello" = true ∧
      emailTest "hello" = false ∧ phoneTest "hello" = false := by
  refine ⟨?_, by decide, by decide, by decide, by decide⟩
  simp only [plateTest, Bool.and_eq_true, decide_eq_true_eq, List.all_eq_true,
    List.length_map, and_assoc]

/-- C2 counterexample: the token `"hello"` is classified as plate-like by
the code (case-insensitive match through `toUpperCase`), although it is
not an uppercase alphanumeric string, and it matches no other rule —
refuting both the claimed characterization of the plate rule and the
claim that `"hello"` matches none of the rules. -/
theorem C2_counterexample :
    plateTest "hello" = true ∧
      ¬(4 ≤ "hello".toList.length ∧ "hello".toList.length ≤ 9 ∧
        ∀ c ∈ "hello".toList, isUpperAlnum c = true) ∧
      emailTest "hello" = false ∧ phoneTest "hello" = false := by decide

/-- Witness for `C2_amended` at the spec's concrete plate token. -/
theorem C2_witness : plateTest "AB1234CD" = true := (C2_amended "AB1234CD").2.1

/-- The `BlurOptions` record of `aiService.ts`. -/
structure BlurOptions where
  faces : Bool
  body : Bool
  licensePlate : Bool
  sensitiveText : Bool
  strength : ℚ
deriving DecidableEq, Repr

/-- A recognized OCR word: `{text, bbox: {x0, y0, x1, y1}}`. -/
structure RecWord where
  text : String
  x0 : ℚ
  y0 : ℚ
  x1 : ℚ
  y1 : ℚ
deriving DecidableEq, Repr

/-- The word classification of stage C of `processImage`: `shouldBlur`
becomes true when an enabled sensitive-text rule (email or phone) or the
enabled plate rule accepts the token. -/
def tokenShouldBlur (o : BlurOptions) (text : String) : Bool :=
  (o.sensitiveText && (emailTest text || phoneTest text)) ||
    (o.licensePlate && plateTest text)

/-- The working canvas, as the pixel value at each integer coordinate. -/
def Canvas : Type := ℤ → ℤ → ℚ

/-- Membership of an integer pixel in the clip rectangle of a blur call. -/
def inRect (x y w h : ℚ) (i j : ℤ) : Bool :=
  decide (x ≤ (i : ℚ)) && decide ((i : ℚ) < x + w) &&
    decide (y ≤ (j : ℚ)) && decide ((j : ℚ) < y + h)

/-- Mirrors `applyBlurToRect` of `processImage` at the pixel level.
`blurredCopy r c` stands for the browser primitive
`ctx.filter = 'blur(r px)'; ctx.drawImage(canvas, 0, 0)` — a blurred
re-draw of the whole canvas, opaque to the core — whose effect the clip
restricts to the rectangle.  A non-positive width or height
short-circuits before any drawing. -/
def applyBlurToRect (blurredCopy : ℚ → Canvas → Canvas) (blurAmount : ℚ)
    (c : Canvas) (x y w h : ℚ) : Canvas :=
  if w ≤ 0 ∨ h ≤ 0 then c
  else fun i j => if inRect x y w h i j then blurredCopy blurAmount c i j else c i j

/-- Observable canvas operations performed by `processImage`, in order. -/
inductive CanvasOp where
  /-- Stage A: alpha-composite of a blurred copy of the image through the
  person mask (one bit per pixel), at the given radius. -/
  | bodyBlur (mask : List Bool) (radius : ℚ)
  /-- An `applyBlurToRect(x, y, w, h)` call that passed the guard, at the
  given radius. -/
  | rectBlur (x y w h radius : ℚ)
deriving DecidableEq, Repr

/-- The radius an operation passes to the canvas blur filter. -/
def CanvasOp.radius : CanvasOp → ℚ
  | .bodyBlur _ r => r
  | .rectBlur _ _ _ _ r => r

/-- `applyBlurToRect` at the trace level: the call is recorded only when
it passes the degenerate-region guard. -/
def applyBlurOp (blurAmount x y w h : ℚ) : List CanvasOp :=
  if w ≤ 0 ∨ h ≤ 0 then [] else [CanvasOp.rectBlur x y w h blurAmount]

/-- Mask construction of stage A (`imgData` from `segmentation.data`):
pixel `i` is opaque exactly when `data[i] === 1`. -/
def maskFromSegmentation (data : List ℕ) : List Bool := data.map (· == 1)

/-- Stage A (body) of `processImage`: runs only when `options.body` is
enabled; a rejected segmentation call is caught and contributes nothing. -/
def bodyStageOps (blurAmount : ℚ) (enabled : Bool)
    (seg : Except String (List ℕ)) : List CanvasOp :=
  if enabled then
    match seg with
    | .error _ => []
    | .ok data => [CanvasOp.bodyBlur (maskFromSegmentation data) blurAmount]
  else []

/-- The stage-B blur call for one deduplicated box: 20 % padding on each
axis (`padX = box.width * 0.2`, `padY = box.height * 0.2`), applied on
both sides. -/
def faceBoxOps (blurAmount : ℚ) (box : FaceBox) : List CanvasOp :=
  let padX := box.width * (1/5)
  let padY := box.height * (1/5)
  applyBlurOp blurAmount (box.x - padX) (box.y - padY)
    (box.width + padX * 2) (box.height + padY * 2)

/-- Stage B (faces) of `processImage`: BlazeFace multi-scale and COCO-SSD
head estimation fan out, their boxes are concatenated, deduplicated at
threshold `0.3`, and each surviving box is blurred with 20 % padding. -/
def faceStageOps (blurAmount : ℚ) (enabled : Bool)
    (df : Except String (List RawPred))
    (dt : ℕ → ℕ → ℕ → ℕ → Except String (List RawPred))
    (coco : Except String (List CocoPred)) (imgW imgH : ℕ) : List CanvasOp :=
  if enabled then
    let blazeBoxes := detectWithBlazeFaceMultiScale df dt imgW imgH
    let cocoHeadBoxes := detectHeadsFromPersons coco
    let allBoxes := blazeBoxes ++ cocoHeadBoxes
    let uniqueBoxes := deduplicateBoxes allBoxes (3/10)
    uniqueBoxes.flatMap (faceBoxOps blurAmount)
  else []

/-- The stage-C blur call for one recognized word: the OCR bounding box is
used directly (`w = x1 - x0`, `h = y1 - y0`, no padding). -/
def textWordOps (blurAmount : ℚ) (o : BlurOptions) (word : RecWord) : List CanvasOp :=
  if tokenShouldBlur o word.text then
    applyBlurOp blurAmount word.x0 word.y0 (word.x1 - word.x0) (word.y1 - word.y0)
  else []

/-- Stage C (license plates / sensitive text) of `processImage`: runs only
when one of the two text options is enabled; a rejected OCR call is
caught and contributes nothing. -/
def textStageOps (blurAmount : ℚ) (o : BlurOptions)
    (ocr : Except String (List RecWord)) : List CanvasOp :=
  if o.licensePlate || o.sensitiveText then
    match ocr with
    | .error _ => []
    | .ok words => words.flatMap (textWordOps blurAmount o)
  else []

/-- The collaborator calls available to one `processImage` invocation:
segmentation, face detection (full image and per tile), object detection
and OCR, plus the image dimensions.  `error` values model
thrown/rejected calls. -/
structure Oracles where
  seg : Except String (List ℕ)
  blazeFull : Except String (List RawPred)
  blazeTile : ℕ → ℕ → ℕ → ℕ → Except String (List RawPred)
  coco : Except String (List CocoPred)
  ocr : Except String (List RecWord)
  imgW : ℕ
  imgH : ℕ

/-- Mirrors `processImage` at the trace level: the blur radius is
`options.strength || 20` (JavaScript `||`: a falsy — zero — strength
falls back to 20), and the three stages run in order A (body), B (faces),
C (text/plates) against the same canvas. -/
def processImage (o : BlurOptions) (oc : Oracles) : List CanvasOp :=
  let blurAmount := if o.strength = 0 then 20 else o.strength
  bodyStageOps blurAmount o.body oc.seg ++
    faceStageOps blurAmount o.faces oc.blazeFull oc.blazeTile oc.coco oc.imgW oc.imgH ++
    textStageOps blurAmount o oc.ocr

/-- C8: for every region with non-positive width or non-positive height,
`applyBlurToRect` is a no-op: every pixel of the canvas is unchanged,
whatever the blur primitive and radius. -/
theorem C8_blur_noop (blurredCopy : ℚ → Canvas → Canvas) (blurAmount : ℚ)
    (c : Canvas) (x y w h : ℚ) (hdeg : w ≤ 0 ∨ h ≤ 0) (i j : ℤ) :
    applyBlurToRect blurredCopy blurAmount c x y w h i j = c i j := by
  unfold applyBlurToRect
  rw [if_pos hdeg]

/-- An all-ones canvas, used in the C8 witness. -/
def constCanvas : Canvas := fun _ _ => 1

/-- A blur primitive that blackens every pixel, used in the C8 witness. -/
def zeroCanvasOp : ℚ → Canvas → Canvas := fun _ _ _ _ => 0

/-- Witness for `C8_blur_noop`: a zero-width region over a nonzero canvas
and a destructive blur primitive still leave the inspected pixel intact. -/
theorem C8_witness :
    ((0 : ℚ) ≤ 0 ∨ (5 : ℚ) ≤ 0) ∧
      applyBlurToRect zeroCanvasOp 20 constCanvas 2 3 0 5 6 7 = constCanvas 6 7 :=
  ⟨Or.inl (le_refl 0),
    C8_blur_noop zeroCanvasOp 20 constCanvas 2 3 0 5 (Or.inl (le_refl 0)) 6 7⟩

lemma applyBlurOp_radius (r x y w h : ℚ) :
    ∀ op ∈ applyBlurOp r x y w h, op.radius = r := by
  intro op hop
  unfold applyBlurOp at hop
  split_ifs at hop
  · exact absurd hop (List.not_mem_nil op)
  · rw [List.mem_singleton] at hop
    rw [hop]
    rfl

lemma bodyStageOps_radius (r : ℚ) (e : Bool) (seg : Except String (List ℕ)) :
    ∀ op ∈ bodyStageOps r e seg, op.radius = r := by
  intro op hop
  cases seg with
  | error msg => simp [bodyStageOps] at hop
  | ok data =>
    unfold bodyStageOps at hop
    split_ifs at hop
    · rw [List.mem_singleton] at hop
      rw [hop]
      rfl
    · exact absurd hop (List.not_mem_nil op)

lemma faceStageOps_radius (r : ℚ) (e : Bool) (df : Except String (List RawPred))
    (dt : ℕ → ℕ → ℕ → ℕ → Except String (List RawPred))
    (coco : Except String (List CocoPred)) (imgW imgH : ℕ) :
    ∀ op ∈ faceStageOps r e df dt coco imgW imgH, op.radius = r := by
  intro op hop
  unfold faceStageOps at hop
  split_ifs at hop
  · rw [List.mem_flatMap] at hop
    obtain ⟨box, _, hop⟩ := hop
    simp only [faceBoxOps] at hop
    exact applyBlurOp_radius r _ _ _ _ op hop
  · exact absurd hop (List.not_mem_nil op)

lemma textStageOps_radius (r : ℚ) (o : BlurOptions) (ocr : Except String (List RecWord)) :
    ∀ op ∈ textStageOps r o ocr, op.radius = r := by
  intro op hop
  cases ocr with
  | error msg => simp [textStageOps] at hop
  | ok words =>
    unfold textStageOps at hop
    split_ifs at hop
    · rw [List.mem_flatMap] at hop
      obtain ⟨word, _, hop⟩ := hop
      unfold textWordOps at hop
      split_ifs at hop
      · exact applyBlurOp_radius r _ _ _ _ op hop
      · exact absurd hop (List.not_mem_nil op)
    · exact absurd hop (List.not_mem_nil op)

/-- C10: when the option set's `strength` is `0` (the only falsy rational;
JavaScript `options.strength || 20`), every operation of that
`processImage` invocation — body composite, face blurs and text blurs —
is performed at radius 20 rather than radius 0. -/
theorem C10_strength_default (o : BlurOptions) (oc : Oracles) (h0 : o.strength = 0) :
    ∀ op ∈ processImage o oc, op.radius = 20 := by
  intro op hop
  simp only [processImage] at hop
  rw [if_pos h0, List.mem_append, List.mem_append] at hop
  rcases hop with (hop | hop) | hop
  · exact bodyStageOps_radius 20 o.body oc.seg op hop
  · exact faceStageOps_radius 20 o.faces oc.blazeFull oc.blazeTile oc.coco oc.imgW oc.imgH op hop
  · exact textStageOps_radius 20 o oc.ocr op hop

/-- An option set with every stage enabled and `strength = 0`. -/
def optsAll : BlurOptions :=
  { faces := true, body := true, licensePlate := true, sensitiveText := true, strength := 0 }

/-- Oracles for the C10 witness: one person pixel, no detections, no
words, small image. -/
def oracleSimple : Oracles :=
  { seg := Except.ok [1], blazeFull := Except.ok [],
    blazeTile := fun _ _ _ _ => Except.ok [], coco := Except.ok [],
    ocr := Except.ok [], imgW := 100, imgH := 100 }

lemma processImage_optsAll_simple :
    processImage optsAll oracleSimple = [CanvasOp.bodyBlur [true] 20] := by
  norm_num [processImage, optsAll, oracleSimple, bodyStageOps, faceStageOps, textStageOps,
    maskFromSegmentation, detectWithBlazeFaceMultiScale, detectHeadsFromPersons,
    deduplicateBoxes]

/-- Witness for `C10_strength_default`: with `strength = 0`, the body
composite runs at radius 20. -/
theorem C10_witness :
    optsAll.strength = 0 ∧ (CanvasOp.bodyBlur [true] 20).radius = 20 :=
  ⟨rfl,
    C10_strength_default optsAll oracleSimple rfl (CanvasOp.bodyBlur [true] 20)
      (by rw [processImage_optsAll_simple]; exact List.mem_cons_self _ _)⟩

/-- Modelled from the spec: expansion of a region by 20 % padding on each
axis (`pad = 0.2 * size`), applied on both sides; returned as
`(x, y, w, h)`. -/
def padRect20 (x y w h : ℚ) : ℚ × ℚ × ℚ × ℚ :=
  (x - (1/5) * w, y - (1/5) * h, w + 2 * ((1/5) * w), h + 2 * ((1/5) * h))

/-- An option set with only sensitive text enabled, strength 20. -/
def optsText : BlurOptions :=
  { faces := false, body := false, licensePlate := false,
    sensitiveText := true, strength := 20 }

/-- The spec's email token with a 10×10 OCR bounding box. -/
def emailWord : RecWord := { text := "john@example.com", x0 := 0, y0 := 0, x1 := 10, y1 := 10 }

/-- C4 counterexample: a matched sensitive-text token is blurred at its
raw OCR bounding box `(0, 0, 10, 10)`, not at the 20 %-padded rectangle
`(-2, -2, 14, 14)` the claim asserts for text regions. -/
theorem C4_counterexample :
    textWordOps 20 optsText emailWord = [CanvasOp.rectBlur 0 0 10 10 20] ∧
      ((0 : ℚ), (0 : ℚ), (10 : ℚ), (10 : ℚ)) ≠ padRect20 0 0 10 10 := by
  constructor
  · have ht : tokenShouldBlur optsText emailWord.text = true := by decide
    unfold textWordOps
    rw [if_pos ht]
    norm_num [applyBlurOp, emailWord]
  · intro h
    norm_num [padRect20, Prod.mk.injEq] at h

/-- C4 (amended): stage B expands every deduplicated face box by exactly
20 % padding per axis on both sides before calling the blur compositor,
but stage C blurs a matched token at its raw OCR bounding box, with no
padding (as §4.6 of the spec states, contradicting the face/text/plate
wording of §4.7). -/
theorem C4_amended (r : ℚ) (box : FaceBox) (o : BlurOptions) (word : RecWord)
    (hmatch : tokenShouldBlur o word.text = true) :
    faceBoxOps r box =
      applyBlurOp r (padRect20 box.x box.y box.width box.height).1
        (padRect20 box.x box.y box.width box.height).2.1
        (padRect20 box.x box.y box.width box.height).2.2.1
        (padRect20 box.x box.y box.width box.height).2.2.2 ∧
      textWordOps r o word =
        applyBlurOp r word.x0 word.y0 (word.x1 - word.x0) (word.y1 - word.y0) := by
  constructor
  · have h1 : box.x - box.width * (1/5) = (padRect20 box.x box.y box.width box.height).1 := by
      simp only [padRect20]
      ring
    have h2 : box.y - box.height * (1/5) =
        (padRect20 box.x box.y box.width box.height).2.1 := by
      simp only [padRect20]
      ring
    have h3 : box.width + box.width * (1/5) * 2 =
        (padRect20 box.x box.y box.width box.height).2.2.1 := by
      simp only [padRect20]
      ring
    have h4 : box.height + box.height * (1/5) * 2 =
        (padRect20 box.x box.y box.width box.height).2.2.2 := by
      simp only [padRect20]
      ring
    simp only [faceBoxOps]
    rw [h1, h2, h3, h4]
  · unfold textWordOps
    rw [if_pos hmatch]

/-- Witness for `C4_amended` at a concrete box and token. -/
theorem C4_witness :
    tokenShouldBlur optsText emailWord.text = true ∧
      textWordOps 20 optsText emailWord =
        applyBlurOp 20 emailWord.x0 emailWord.y0 (emailWord.x1 - emailWord.x0)
          (emailWord.y1 - emailWord.y0) :=
  ⟨by decide, (C4_amended 20 unitBox optsText emailWord (by decide)).2⟩

/-- C9 (amended): the trace of `processImage` is the concatenation of the
three stage traces, each depending only on its own collaborators, so a
failure inside one stage cannot abort the others; a rejected
segmentation, OCR, object-detection or full-image face-detection call is
caught locally and that call's contribution is the empty region set.  A
face-detection call that fails *inside* the tiling pass, however,
contributes the regions gathered before the failure rather than an empty
set — see the counterexample. -/
theorem C9_amended (o : BlurOptions) (oc : Oracles) :
    processImage o oc =
      bodyStageOps (if o.strength = 0 then 20 else o.strength) o.body oc.seg ++
        faceStageOps (if o.strength = 0 then 20 else o.strength) o.faces oc.blazeFull
          oc.blazeTile oc.coco oc.imgW oc.imgH ++
        textStageOps (if o.strength = 0 then 20 else o.strength) o oc.ocr ∧
      (∀ e, oc.seg = Except.error e →
        bodyStageOps (if o.strength = 0 then 20 else o.strength) o.body oc.seg = []) ∧
      (∀ e, oc.ocr = Except.error e →
        textStageOps (if o.strength = 0 then 20 else o.strength) o oc.ocr = []) ∧
      (∀ e, oc.coco = Except.error e → detectHeadsFromPersons oc.coco = []) ∧
      (∀ e, oc.blazeFull = Except.error e →
        detectWithBlazeFaceMultiScale oc.blazeFull oc.blazeTile oc.imgW oc.imgH = []) := by
  refine ⟨rfl, ?_, ?_, ?_, ?_⟩
  · rintro e he
    rw [he]
    simp [bodyStageOps]
  · rintro e he
    rw [he]
    simp [textStageOps]
  · rintro e he
    rw [he]
    rfl
  · rintro e he
    rw [he]
    rfl

/-- A full-image face prediction used in the C9 counterexample. -/
def fullPred : RawPred := { tlx := 0, tly := 0, brx := 50, bry := 50, prob := some (1/2) }

/-- C9 counterexample: on a 500×500 image, when the full-image BlazeFace
call succeeds with one face but every tile call rejects, the caught
detector returns the pass-1 box — a nonempty contribution, not the empty
region set the claim asserts for a failing detector. -/
theorem C9_counterexample :
    detectWithBlazeFaceMultiScale (Except.ok [fullPred])
        (fun _ _ _ _ => Except.error "tile-reject") 500 500 = [predToBoxFull fullPred] ∧
      [predToBoxFull fullPred] ≠ ([] : List FaceBox) := by
  refine ⟨?_, by simp⟩
  have htiles : tileList (min (min 500 500) 640 / 2) 500 500 =
      [(0, 0), (250, 0), (0, 250), (250, 250)] := by decide
  simp only [detectWithBlazeFaceMultiScale]
  rw [if_pos (by norm_num : 400 < 500 ∨ 400 < 500), htiles]
  simp [runTilesCatch]

/-- Oracles for the C9 witness: every collaborator succeeds except OCR. -/
def oracleOcrFail : Oracles :=
  { seg := Except.ok [], blazeFull := Except.ok [],
    blazeTile := fun _ _ _ _ => Except.ok [], coco := Except.ok [],
    ocr := Except.error "ocr-reject", imgW := 100, imgH := 100 }

/-- Witness for `C9_amended`: a rejected OCR call yields an empty stage-C
trace. -/
theorem C9_witness :
    textStageOps (if optsText.strength = 0 then 20 else optsText.strength) optsText
      oracleOcrFail.ocr = [] :=
  (C9_amended optsText oracleOcrFail).2.2.1 "ocr-reject" rfl
